import Mathlib

/-!
# Drive tracking of the ejecter panel plugin (`src/ejecter.c`)

A shallow embedding of the bookkeeping in `ejecter.c`: the list of drives seen
mounted (`mdrives`), the list of ejects in flight (`ejdrives`), the handlers of
the volume-monitor signals, the eject completion callback and the control
message handler.

Conventions of the embedding.

* A `GDrive *` is an `Option Nat`: `none` is the NULL pointer, `some a` the
  object at address `a`. The tracker only ever compares these pointers.
* A `GList` is a Lean `List` holding the `data` fields in order.
* Every handler returns the new plugin state together with the calls it made to
  the notification service and to the eject primitive, in program order
  (`List Call`). Calls that only redraw the menu or the icon (`show_menu`,
  `update_icon`) touch neither list and are left out.
* `was_ejected` reads a list node after releasing it. Whatever runs through it
  (`handle_drive_out`, `step`, `run`) returns an `Option` state next to the
  calls: `none` when that read sends the scan through a wild pointer, in which
  case the calls are those made up to that point.
* Answers of the outside world (the volume monitor's enumerations, a drive's
  name and identifier, the value returned by `lxpanel_notify`, the `GError`)
  are arguments of the function that asks for them.
* `_( )` (gettext) is the identity: messages are the untranslated texts.
-/

namespace Ejecter

/-- Pointer to a `GDrive`: `none` is NULL. -/
abbrev GDrive := Option Nat

/-- A mount as far as the tracker looks at it: `g_mount_get_drive (mount)`. -/
structure GMount where
  drive : GDrive
deriving DecidableEq, Repr

/-- The accessor `g_mount_get_drive`; NULL for a mount without owning drive. -/
def g_mount_get_drive (mount : GMount) : GDrive := mount.drive

/-- The struct `EjectList` of `ejecter.c`: a drive and the sequence number of
its notification, `-1` when there is none. -/
structure EjectList where
  drv : GDrive
  seq : Int
deriving DecidableEq, Repr

/-- The two fields of `EjecterPlugin` that the tracking code reads and writes. -/
structure EjecterPlugin where
  mdrives : List GDrive
  ejdrives : List EjectList
deriving DecidableEq, Repr

/-- The answers of the volume monitor at one moment. -/
structure GVolumeMonitor where
  /-- Result of `g_volume_monitor_get_mounts`. -/
  mounts : List GMount
  /-- Result of `g_volume_monitor_get_connected_drives`. -/
  connected_drives : List GDrive
  /-- Result of `g_drive_get_identifier (d, "unix-device")`, NULL when the drive has none. -/
  unix_device : GDrive → Option String

/-- Calls leaving the plugin. -/
inductive Call where
  | lxpanel_notify (message : String)
  | lxpanel_notify_clear (seq : Int)
  | g_drive_eject_with_operation (drv : GDrive)
deriving DecidableEq, Repr

/-- Text of the warning raised by `handle_drive_out`. -/
def removed_message : String :=
  "Drive was removed without ejecting\nPlease use menu to eject before removal"

/-- Text built by `eject_done` on success. -/
def ejected_message (name : String) : String :=
  name ++ " has been ejected\nIt is now safe to remove the device"

/-- Text built by `eject_done` on failure. -/
def failed_message (name detail : String) : String :=
  "Failed to eject " ++ name ++ "\n" ++ detail

/-- The function `g_list_remove (list, data)` of GLib: drops the first element
whose data is `data`, leaves the list alone when there is none. -/
def g_list_remove {α : Type} [DecidableEq α] : List α → α → List α
  | [], _ => []
  | x :: xs, data => if x = data then xs else x :: g_list_remove xs data

/-- The function `g_strcmp0` of GLib: `strcmp` that accepts NULL, NULL sorting
before every string. -/
def g_strcmp0 (str1 str2 : Option String) : Int :=
  match str1, str2 with
  | none, none => 0
  | none, some _ => -1
  | some _, none => 1
  | some a, some b => if a = b then 0 else if a < b then -1 else 1

/-- The function `log_eject`: append a record without notification. -/
def log_eject (ej : EjecterPlugin) (drive : GDrive) : EjecterPlugin :=
  { ej with ejdrives := ej.ejdrives ++ [{ drv := drive, seq := -1 }] }

/-- What `l = l->next` reads in `was_ejected` right after `g_list_remove` has
unlinked and released the node `l`. The C text does not fix that value; it
depends on the allocator behind GLib. `null`: the field still holds the NULL
that `g_list_remove` stored when unlinking the node (slice allocator), so the
scan ends there. `wild`: the allocator has overwritten the field (GLib on top of
malloc), the scan goes on through a pointer that is neither NULL nor a node of
the list, and the function has no defined result. -/
inductive FreedNext where
  | null
  | wild
deriving DecidableEq, Repr

/-- The loop of `was_ejected` from the node at the head of the argument on.
First component: the flag `ejected` and what is left of that part of the list
when the loop comes to its end, `none` when it runs off through a wild pointer.
Second component: the `lxpanel_notify_clear` calls made, in either case. Each
record is its own allocation, so `g_list_remove (ej->ejdrives, el)` takes out
exactly the node being visited. -/
def was_ejected_loop (fr : FreedNext) (drive : GDrive) :
    List EjectList → Option (Bool × List EjectList) × List Call
  | [] => (some (false, []), [])
  | el :: rest =>
    if el.drv = drive then
      let cleared := if el.seq ≠ -1 then [Call.lxpanel_notify_clear el.seq] else []
      match fr with
      | FreedNext.null => (some (true, rest), cleared)
      | FreedNext.wild => (none, cleared)
    else
      let r := was_ejected_loop fr drive rest
      (r.1.map (fun p => (p.1, el :: p.2)), r.2)

/-- The function `was_ejected`: returned flag and new state when it returns,
and the calls made. -/
def was_ejected (fr : FreedNext) (ej : EjecterPlugin) (drive : GDrive) :
    Option (Bool × EjecterPlugin) × List Call :=
  let r := was_ejected_loop fr drive ej.ejdrives
  (r.1.map (fun p => (p.1, { ej with ejdrives := p.2 })), r.2)

/-- The search loop shared by `log_mount` and `was_mounted`: is there a node of
the list whose data is `drive`. -/
def mdrives_scan (drive : GDrive) : List GDrive → Bool
  | [] => false
  | drv :: rest => if drv = drive then true else mdrives_scan drive rest

/-- The function `log_mount`: the owning drive of the mount is appended unless
a node already holds it. The pointer is not tested against NULL. -/
def log_mount (ej : EjecterPlugin) (mount : GMount) : EjecterPlugin :=
  let drive := g_mount_get_drive mount
  if mdrives_scan drive ej.mdrives then ej
  else { ej with mdrives := ej.mdrives ++ [drive] }

/-- The function `log_init_mounts`: reset `mdrives` and record every mount the
monitor lists. -/
def log_init_mounts (ej : EjecterPlugin) (mnts : List GMount) : EjecterPlugin :=
  mnts.foldl log_mount { ej with mdrives := [] }

/-- The function `was_mounted`: on the first node holding `drive`, remove it
and return TRUE; FALSE when the scan reaches the end. -/
def was_mounted (ej : EjecterPlugin) (drive : GDrive) : Bool × EjecterPlugin :=
  if mdrives_scan drive ej.mdrives then
    (true, { ej with mdrives := g_list_remove ej.mdrives drive })
  else (false, ej)

/-- The function `add_seq_for_drive` on the list: the first record of `drive`
gets `seq`, then the loop returns. -/
def add_seq_loop (drive : GDrive) (seq : Int) : List EjectList → List EjectList
  | [] => []
  | el :: rest =>
    if el.drv = drive then { el with seq := seq } :: rest
    else el :: add_seq_loop drive seq rest

/-- The function `add_seq_for_drive`. -/
def add_seq_for_drive (ej : EjecterPlugin) (drive : GDrive) (seq : Int) : EjecterPlugin :=
  { ej with ejdrives := add_seq_loop drive seq ej.ejdrives }

/-- The handler `handle_mount_in` (signal `mount-added`). -/
def handle_mount_in (ej : EjecterPlugin) (mount : GMount) : EjecterPlugin × List Call :=
  (log_mount ej mount, [])

/-- The handler `handle_mount_pre` (signal `mount-pre-unmount`). -/
def handle_mount_pre (ej : EjecterPlugin) (mount : GMount) : EjecterPlugin × List Call :=
  (log_eject ej (g_mount_get_drive mount), [])

/-- The handler `handle_drive_out` (signal `drive-disconnected`). The C
condition is `was_mounted (ej, drive) && !was_ejected (ej, drive)`: the right
operand runs only when the left one is TRUE. When `was_ejected` does not return
the handler does not either. -/
def handle_drive_out (fr : FreedNext) (ej : EjecterPlugin) (drive : GDrive) :
    Option EjecterPlugin × List Call :=
  let m := was_mounted ej drive
  if m.1 then
    let e := was_ejected fr m.2 drive
    match e.1 with
    | none => (none, e.2)
    | some (ejected, ej2) =>
      if !ejected then (some ej2, e.2 ++ [Call.lxpanel_notify removed_message])
      else (some ej2, e.2)
  else (some m.2, [])

/-- The handler `handle_eject_clicked`: start the asynchronous eject. -/
def handle_eject_clicked (ej : EjecterPlugin) (drv : GDrive) : EjecterPlugin × List Call :=
  (ej, [Call.g_drive_eject_with_operation drv])

/-- The callback `eject_done`. `name` is `g_drive_get_name (drv)`, `err` the
message of the `GError` (`none` when the eject succeeded) and `seq` the value
that the single `lxpanel_notify` call of the callback returns. -/
def eject_done (ej : EjecterPlugin) (drv : GDrive) (name : String) (err : Option String)
    (seq : Int) : EjecterPlugin × List Call :=
  match err with
  | none => (add_seq_for_drive ej drv seq, [Call.lxpanel_notify (ejected_message name)])
  | some detail => (ej, [Call.lxpanel_notify (failed_message name detail)])

/-- The loop of `ejecter_control_msg` over the connected drives. -/
def control_msg_loop (mon : GVolumeMonitor) (cmd : Option String) :
    EjecterPlugin → List GDrive → EjecterPlugin
  | ej, [] => ej
  | ej, d :: rest =>
    let id := mon.unix_device d
    if g_strcmp0 id cmd = 0 then control_msg_loop mon cmd (log_eject ej d) rest
    else control_msg_loop mon cmd ej rest

/-- The function `ejecter_control_msg`: returned value, new state, calls made. -/
def ejecter_control_msg (ej : EjecterPlugin) (mon : GVolumeMonitor) (cmd : Option String) :
    Bool × EjecterPlugin × List Call :=
  (true, control_msg_loop mon cmd ej mon.connected_drives, [])

/-- The tracking part of `ejecter_init`, on the zero-filled plugin struct that
the constructor allocates. -/
def ejecter_init (mnts : List GMount) : EjecterPlugin :=
  log_init_mounts { mdrives := [], ejdrives := [] } mnts

/-- The tracker before any mount is known. -/
def empty_tracker : EjecterPlugin := ejecter_init []

/-- What reaches the plugin after `ejecter_init`: the seven monitor signals,
a click on a menu item, the eject completion and the control message. -/
inductive Event where
  | volume_added
  | volume_removed
  | mount_added (mount : GMount)
  | mount_removed (mount : GMount)
  | mount_pre_unmount (mount : GMount)
  | drive_connected (drive : GDrive)
  | drive_disconnected (drive : GDrive)
  | eject_clicked (drv : GDrive)
  | eject_done (drv : GDrive) (name : String) (err : Option String) (seq : Int)
  | control_msg (mon : GVolumeMonitor) (cmd : Option String)

/-- Dispatch of one event to its handler, as wired up by `ejecter_init`. -/
def step (fr : FreedNext) (ej : EjecterPlugin) : Event → Option EjecterPlugin × List Call
  | Event.volume_added => (some ej, [])
  | Event.volume_removed => (some ej, [])
  | Event.mount_added mount => (some (handle_mount_in ej mount).1, (handle_mount_in ej mount).2)
  | Event.mount_removed _ => (some ej, [])
  | Event.mount_pre_unmount mount =>
    (some (handle_mount_pre ej mount).1, (handle_mount_pre ej mount).2)
  | Event.drive_connected _ => (some ej, [])
  | Event.drive_disconnected drive => handle_drive_out fr ej drive
  | Event.eject_clicked drv =>
    (some (handle_eject_clicked ej drv).1, (handle_eject_clicked ej drv).2)
  | Event.eject_done drv name err seq =>
    (some (eject_done ej drv name err seq).1, (eject_done ej drv name err seq).2)
  | Event.control_msg mon cmd =>
    (some (ejecter_control_msg ej mon cmd).2.1, (ejecter_control_msg ej mon cmd).2.2)

/-- Handling a sequence of events one at a time; the calls are concatenated.
Once a handler has not returned, no later event is handled. -/
def run (fr : FreedNext) : EjecterPlugin → List Event → Option EjecterPlugin × List Call
  | ej, [] => (some ej, [])
  | ej, e :: es =>
    let r := step fr ej e
    match r.1 with
    | none => (none, r.2)
    | some ej1 =>
      let r2 := run fr ej1 es
      (r2.1, r.2 ++ r2.2)

/-- True on a `lxpanel_notify` call. -/
def Call.is_notify : Call → Bool
  | Call.lxpanel_notify _ => true
  | _ => false

/-- The drives of the eject records, in list order. -/
def ejected_drives (ej : EjecterPlugin) : List GDrive := ej.ejdrives.map EjectList.drv


/-! ## Facts about the two lists -/

theorem mdrives_scan_iff (drive : GDrive) (l : List GDrive) :
    mdrives_scan drive l = true ↔ drive ∈ l := by
  induction l with
  | nil => simp [mdrives_scan]
  | cons x xs ih =>
    by_cases h : x = drive
    · simp [mdrives_scan, h]
    · have h2 : ¬ drive = x := fun e => h e.symm
      simp [mdrives_scan, h, h2, ih]

theorem g_list_remove_of_not_mem {α : Type} [DecidableEq α] (l : List α) (data : α)
    (h : data ∉ l) : g_list_remove l data = l := by
  induction l with
  | nil => rfl
  | cons x xs ih =>
    have hx : x ≠ data := fun e => h (e ▸ List.mem_cons_self _ _)
    have hxs : data ∉ xs := fun m => h (List.mem_cons_of_mem _ m)
    simp [g_list_remove, hx, ih hxs]

theorem mem_of_mem_g_list_remove {α : Type} [DecidableEq α] (l : List α) (data x : α)
    (h : x ∈ g_list_remove l data) : x ∈ l := by
  induction l with
  | nil => simp [g_list_remove] at h
  | cons y ys ih =>
    by_cases hy : y = data
    · simp only [g_list_remove, hy, if_true] at h
      exact List.mem_cons_of_mem _ h
    · simp only [g_list_remove, hy, if_false, List.mem_cons] at h
      rcases h with rfl | h
      · exact List.mem_cons_self _ _
      · exact List.mem_cons_of_mem _ (ih h)

theorem g_list_remove_nodup {α : Type} [DecidableEq α] (l : List α) (data : α)
    (h : l.Nodup) : (g_list_remove l data).Nodup := by
  induction l with
  | nil => simp [g_list_remove]
  | cons y ys ih =>
    rw [List.nodup_cons] at h
    by_cases hy : y = data
    · simp only [g_list_remove, hy, if_true]
      exact h.2
    · simp only [g_list_remove, hy, if_false]
      rw [List.nodup_cons]
      exact ⟨fun m => h.1 (mem_of_mem_g_list_remove ys data y m), ih h.2⟩

theorem g_list_remove_eq_filter {α : Type} [DecidableEq α] (l : List α) (data : α)
    (h : l.Nodup) : g_list_remove l data = l.filter (fun x => !decide (x = data)) := by
  induction l with
  | nil => simp [g_list_remove]
  | cons y ys ih =>
    rw [List.nodup_cons] at h
    by_cases hy : y = data
    · subst hy
      simp only [g_list_remove, if_true]
      rw [List.filter_cons]
      simp only [decide_True, Bool.not_true, Bool.false_eq_true, if_false]
      symm
      rw [List.filter_eq_self]
      intro a ha
      have : a ≠ y := fun e => h.1 (e ▸ ha)
      simp [this]
    · simp only [g_list_remove, hy, if_false]
      rw [List.filter_cons]
      simp [hy, ih h.2]

theorem g_list_remove_length {α : Type} [DecidableEq α] (l : List α) (data : α)
    (h : data ∈ l) : (g_list_remove l data).length + 1 = l.length := by
  induction l with
  | nil => simp at h
  | cons y ys ih =>
    by_cases hy : y = data
    · simp [g_list_remove, hy]
    · simp only [g_list_remove, hy, if_false, List.length_cons]
      rw [List.mem_cons] at h
      rcases h with rfl | h
      · exact absurd rfl hy
      · rw [ih h]

theorem was_mounted_fst (ej : EjecterPlugin) (D : GDrive) :
    (was_mounted ej D).1 = decide (D ∈ ej.mdrives) := by
  unfold was_mounted
  by_cases h : D ∈ ej.mdrives
  · simp [(mdrives_scan_iff D ej.mdrives).2 h, h]
  · have : mdrives_scan D ej.mdrives = false := by
      cases hs : mdrives_scan D ej.mdrives
      · rfl
      · exact absurd ((mdrives_scan_iff D ej.mdrives).1 hs) h
    simp [this, h]

theorem was_mounted_mdrives (ej : EjecterPlugin) (D : GDrive) :
    (was_mounted ej D).2.mdrives = g_list_remove ej.mdrives D := by
  unfold was_mounted
  by_cases h : D ∈ ej.mdrives
  · simp [(mdrives_scan_iff D ej.mdrives).2 h]
  · have : mdrives_scan D ej.mdrives = false := by
      cases hs : mdrives_scan D ej.mdrives
      · rfl
      · exact absurd ((mdrives_scan_iff D ej.mdrives).1 hs) h
    simp [this, g_list_remove_of_not_mem _ _ h]

theorem was_mounted_ejdrives (ej : EjecterPlugin) (D : GDrive) :
    (was_mounted ej D).2.ejdrives = ej.ejdrives := by
  unfold was_mounted
  split <;> rfl

theorem was_ejected_loop_no_record (fr : FreedNext) (D : GDrive) (l : List EjectList)
    (h : ∀ el ∈ l, el.drv ≠ D) : was_ejected_loop fr D l = (some (false, l), []) := by
  induction l with
  | nil => rfl
  | cons el rest ih =>
    have h1 : el.drv ≠ D := h el (List.mem_cons_self _ _)
    have h2 := ih (fun x hx => h x (List.mem_cons_of_mem _ hx))
    simp [was_ejected_loop, h1, h2]

theorem was_ejected_loop_null_returns (D : GDrive) (l : List EjectList) :
    ∃ p, (was_ejected_loop FreedNext.null D l).1 = some p := by
  induction l with
  | nil => exact ⟨_, rfl⟩
  | cons el rest ih =>
    by_cases hd : el.drv = D
    · exact ⟨(true, rest), by simp [was_ejected_loop, hd]⟩
    · obtain ⟨p, hp⟩ := ih
      exact ⟨(p.1, el :: p.2), by simp [was_ejected_loop, hd, hp]⟩

theorem was_ejected_loop_wild (D : GDrive) (l : List EjectList)
    (h : D ∈ l.map EjectList.drv) : (was_ejected_loop FreedNext.wild D l).1 = none := by
  induction l with
  | nil => simp at h
  | cons el rest ih =>
    by_cases hd : el.drv = D
    · simp [was_ejected_loop, hd]
    · have hd2 : ¬ D = el.drv := fun e => hd e.symm
      simp only [List.map_cons, List.mem_cons, hd2, false_or] at h
      simp [was_ejected_loop, hd, ih h]

theorem add_seq_loop_drives (D : GDrive) (seq : Int) (l : List EjectList) :
    (add_seq_loop D seq l).map EjectList.drv = l.map EjectList.drv := by
  induction l with
  | nil => rfl
  | cons el rest ih =>
    by_cases h : el.drv = D
    · simp [add_seq_loop, h]
    · simp [add_seq_loop, h, ih]

theorem g_strcmp0_eq_zero (str1 str2 : Option String) :
    g_strcmp0 str1 str2 = 0 ↔ str1 = str2 := by
  cases str1 with
  | none => cases str2 <;> simp [g_strcmp0]
  | some a =>
    cases str2 with
    | none => simp [g_strcmp0]
    | some b =>
      by_cases h : a = b
      · simp [g_strcmp0, h]
      · by_cases h2 : a < b
        · simp [g_strcmp0, h, h2]
        · simp [g_strcmp0, h, h2]

theorem control_msg_loop_mdrives (mon : GVolumeMonitor) (cmd : Option String)
    (ej : EjecterPlugin) (l : List GDrive) :
    (control_msg_loop mon cmd ej l).mdrives = ej.mdrives := by
  induction l generalizing ej with
  | nil => rfl
  | cons d rest ih =>
    simp only [control_msg_loop]
    split
    · rw [ih]; rfl
    · rw [ih]

theorem control_msg_loop_ejdrives (mon : GVolumeMonitor) (cmd : Option String)
    (ej : EjecterPlugin) (l : List GDrive) :
    (control_msg_loop mon cmd ej l).ejdrives = ej.ejdrives ++
      (l.filter (fun d => decide (mon.unix_device d = cmd))).map
        (fun d => ({ drv := d, seq := -1 } : EjectList)) := by
  induction l generalizing ej with
  | nil => simp [control_msg_loop]
  | cons d rest ih =>
    have hz : g_strcmp0 (mon.unix_device d) cmd = 0 ↔ mon.unix_device d = cmd :=
      g_strcmp0_eq_zero _ _
    by_cases h : mon.unix_device d = cmd
    · simp only [control_msg_loop, hz.2 h, if_true]
      rw [ih]
      simp [log_eject, List.filter_cons, h]
    · have h0 : ¬ g_strcmp0 (mon.unix_device d) cmd = 0 := fun e => h (hz.1 e)
      simp only [control_msg_loop, h0, if_false]
      rw [ih]
      simp [List.filter_cons, h]


theorem handle_drive_out_not_mounted (fr : FreedNext) (ej : EjecterPlugin) (D : GDrive)
    (h : D ∉ ej.mdrives) : handle_drive_out fr ej D = (some ej, []) := by
  have h1 : (was_mounted ej D).1 = false := by rw [was_mounted_fst]; simp [h]
  have h2 : was_mounted ej D = (false, ej) := by
    unfold was_mounted at h1 ⊢
    split
    · rename_i hs
      simp [hs] at h1
    · rfl
  simp [handle_drive_out, h2]

theorem handle_drive_out_mounted (fr : FreedNext) (ej : EjecterPlugin) (D : GDrive)
    (h : D ∈ ej.mdrives) :
    handle_drive_out fr ej D =
      ((was_ejected_loop fr D ej.ejdrives).1.map
         (fun p => { mdrives := g_list_remove ej.mdrives D, ejdrives := p.2 }),
       (was_ejected_loop fr D ej.ejdrives).2 ++
         (if (was_ejected_loop fr D ej.ejdrives).1.map Prod.fst = some false
          then [Call.lxpanel_notify removed_message] else [])) := by
  have hs := (mdrives_scan_iff D ej.mdrives).2 h
  simp only [handle_drive_out, was_mounted, hs, if_true, was_ejected]
  cases hl : (was_ejected_loop fr D ej.ejdrives).1 with
  | none => simp
  | some p =>
    obtain ⟨b, l2⟩ := p
    cases b <;> simp

theorem handle_drive_out_mdrives (fr : FreedNext) (ej : EjecterPlugin) (D : GDrive)
    (s : EjecterPlugin) (hs : (handle_drive_out fr ej D).1 = some s) :
    s.mdrives = g_list_remove ej.mdrives D := by
  by_cases h : D ∈ ej.mdrives
  · rw [handle_drive_out_mounted fr ej D h] at hs
    simp only [Option.map_eq_some'] at hs
    obtain ⟨p, _, hp⟩ := hs
    rw [← hp]
  · rw [handle_drive_out_not_mounted fr ej D h] at hs
    simp only [Option.some.injEq] at hs
    rw [← hs, g_list_remove_of_not_mem _ _ h]

theorem handle_drive_out_null_returns (ej : EjecterPlugin) (D : GDrive) :
    ∃ s, (handle_drive_out FreedNext.null ej D).1 = some s := by
  by_cases hm : D ∈ ej.mdrives
  · rw [handle_drive_out_mounted _ ej D hm]
    obtain ⟨p, hp⟩ := was_ejected_loop_null_returns D ej.ejdrives
    exact ⟨_, by rw [hp]; rfl⟩
  · rw [handle_drive_out_not_mounted _ ej D hm]
    exact ⟨ej, rfl⟩

theorem log_mount_mdrives_mem (ej : EjecterPlugin) (mount : GMount) (D : GDrive) :
    D ∈ (log_mount ej mount).mdrives ↔ D ∈ ej.mdrives ∨ D = g_mount_get_drive mount := by
  unfold log_mount
  by_cases h : g_mount_get_drive mount ∈ ej.mdrives
  · simp only [(mdrives_scan_iff _ _).2 h, if_true]
    constructor
    · exact Or.inl
    · rintro (h1 | rfl)
      · exact h1
      · exact h
  · have hs : mdrives_scan (g_mount_get_drive mount) ej.mdrives = false := by
      cases hs : mdrives_scan (g_mount_get_drive mount) ej.mdrives
      · rfl
      · exact absurd ((mdrives_scan_iff _ _).1 hs) h
    simp [hs]

theorem log_mount_of_mem (ej : EjecterPlugin) (mount : GMount)
    (h : g_mount_get_drive mount ∈ ej.mdrives) : log_mount ej mount = ej := by
  unfold log_mount
  simp [(mdrives_scan_iff _ _).2 h]

theorem nodup_filter_eq_length {α : Type} [DecidableEq α] (l : List α) (a : α)
    (hn : l.Nodup) (h : a ∈ l) : (l.filter (fun d => decide (d = a))).length = 1 := by
  induction l with
  | nil => simp at h
  | cons y ys ih =>
    rw [List.nodup_cons] at hn
    by_cases hy : y = a
    · subst hy
      have hnil : ys.filter (fun d => decide (d = y)) = [] := by
        rw [List.filter_eq_nil_iff]
        intro b hb
        have : b ≠ y := fun e => hn.1 (e ▸ hb)
        simp [this]
      simp [List.filter_cons, hnil]
    · rw [List.mem_cons] at h
      rcases h with rfl | h
      · exact absurd rfl hy
      · simpa [List.filter_cons, hy] using ih hn.2 h

theorem log_mount_nodup (ej : EjecterPlugin) (mount : GMount) (h : ej.mdrives.Nodup) :
    (log_mount ej mount).mdrives.Nodup := by
  unfold log_mount
  by_cases hm : g_mount_get_drive mount ∈ ej.mdrives
  · simp only [(mdrives_scan_iff _ _).2 hm, if_true]
    exact h
  · have hs : mdrives_scan (g_mount_get_drive mount) ej.mdrives = false := by
      cases hs : mdrives_scan (g_mount_get_drive mount) ej.mdrives
      · rfl
      · exact absurd ((mdrives_scan_iff _ _).1 hs) hm
    simp only [hs, Bool.false_eq_true, if_false]
    rw [List.nodup_append]
    refine ⟨h, List.nodup_singleton _, ?_⟩
    intro a ha hb
    rw [List.mem_singleton] at hb
    exact hm (hb ▸ ha)

theorem log_mount_ejdrives (ej : EjecterPlugin) (mount : GMount) :
    (log_mount ej mount).ejdrives = ej.ejdrives := by
  unfold log_mount
  cases hs : mdrives_scan (g_mount_get_drive mount) ej.mdrives <;> simp [hs]

theorem foldl_log_mount_mem (mnts : List GMount) (ej : EjecterPlugin) (D : GDrive) :
    D ∈ (mnts.foldl log_mount ej).mdrives ↔
      D ∈ ej.mdrives ∨ ∃ m ∈ mnts, g_mount_get_drive m = D := by
  induction mnts generalizing ej with
  | nil => simp
  | cons m ms ih =>
    rw [List.foldl_cons, ih, log_mount_mdrives_mem]
    constructor
    · rintro ((h | h) | ⟨x, hx, hd⟩)
      · exact Or.inl h
      · exact Or.inr ⟨m, List.mem_cons_self _ _, h.symm⟩
      · exact Or.inr ⟨x, List.mem_cons_of_mem _ hx, hd⟩
    · rintro (h | ⟨x, hx, hd⟩)
      · exact Or.inl (Or.inl h)
      · rw [List.mem_cons] at hx
        rcases hx with rfl | hx
        · exact Or.inl (Or.inr hd.symm)
        · exact Or.inr ⟨x, hx, hd⟩

theorem foldl_log_mount_nodup (mnts : List GMount) (ej : EjecterPlugin)
    (h : ej.mdrives.Nodup) : (mnts.foldl log_mount ej).mdrives.Nodup := by
  induction mnts generalizing ej with
  | nil => exact h
  | cons m ms ih =>
    rw [List.foldl_cons]
    exact ih _ (log_mount_nodup ej m h)

theorem ejecter_init_mem (mnts : List GMount) (D : GDrive) :
    D ∈ (ejecter_init mnts).mdrives ↔ ∃ m ∈ mnts, g_mount_get_drive m = D := by
  unfold ejecter_init log_init_mounts
  rw [foldl_log_mount_mem]
  simp

theorem ejecter_init_nodup (mnts : List GMount) : (ejecter_init mnts).mdrives.Nodup := by
  unfold ejecter_init log_init_mounts
  exact foldl_log_mount_nodup _ _ List.nodup_nil

theorem step_not_mounted (fr : FreedNext) (ej : EjecterPlugin) (e : Event) (D : GDrive)
    (s : EjecterPlugin) (h : D ∉ ej.mdrives)
    (he : ∀ m, e = Event.mount_added m → g_mount_get_drive m ≠ D)
    (hs : (step fr ej e).1 = some s) : D ∉ s.mdrives := by
  cases e with
  | volume_added => simp only [step, Option.some.injEq] at hs; exact hs ▸ h
  | volume_removed => simp only [step, Option.some.injEq] at hs; exact hs ▸ h
  | mount_added mount =>
    simp only [step, handle_mount_in, Option.some.injEq] at hs
    rw [← hs, log_mount_mdrives_mem]
    rintro (h1 | h1)
    · exact h h1
    · exact he mount rfl h1.symm
  | mount_removed mount => simp only [step, Option.some.injEq] at hs; exact hs ▸ h
  | mount_pre_unmount mount =>
    simp only [step, handle_mount_pre, Option.some.injEq] at hs
    rw [← hs]
    exact h
  | drive_connected d => simp only [step, Option.some.injEq] at hs; exact hs ▸ h
  | drive_disconnected d =>
    simp only [step] at hs
    rw [handle_drive_out_mdrives fr ej d s hs]
    exact fun m => h (mem_of_mem_g_list_remove _ _ _ m)
  | eject_clicked d =>
    simp only [step, handle_eject_clicked, Option.some.injEq] at hs
    exact hs ▸ h
  | eject_done drv name err seq =>
    simp only [step, Option.some.injEq] at hs
    rw [← hs]
    cases err <;> exact h
  | control_msg mon cmd =>
    simp only [step, ejecter_control_msg, Option.some.injEq] at hs
    rw [← hs, control_msg_loop_mdrives]
    exact h

theorem step_nodup (fr : FreedNext) (ej : EjecterPlugin) (e : Event) (s : EjecterPlugin)
    (h : ej.mdrives.Nodup) (hs : (step fr ej e).1 = some s) : s.mdrives.Nodup := by
  cases e with
  | volume_added => simp only [step, Option.some.injEq] at hs; exact hs ▸ h
  | volume_removed => simp only [step, Option.some.injEq] at hs; exact hs ▸ h
  | mount_added mount =>
    simp only [step, handle_mount_in, Option.some.injEq] at hs
    rw [← hs]
    exact log_mount_nodup ej mount h
  | mount_removed mount => simp only [step, Option.some.injEq] at hs; exact hs ▸ h
  | mount_pre_unmount mount =>
    simp only [step, handle_mount_pre, Option.some.injEq] at hs
    rw [← hs]
    exact h
  | drive_connected d => simp only [step, Option.some.injEq] at hs; exact hs ▸ h
  | drive_disconnected d =>
    simp only [step] at hs
    rw [handle_drive_out_mdrives fr ej d s hs]
    exact g_list_remove_nodup _ _ h
  | eject_clicked d =>
    simp only [step, handle_eject_clicked, Option.some.injEq] at hs
    exact hs ▸ h
  | eject_done drv name err seq =>
    simp only [step, Option.some.injEq] at hs
    rw [← hs]
    cases err <;> exact h
  | control_msg mon cmd =>
    simp only [step, ejecter_control_msg, Option.some.injEq] at hs
    rw [← hs, control_msg_loop_mdrives]
    exact h

theorem run_induct (fr : FreedNext) (P : EjecterPlugin → Prop) (Q : Event → Prop)
    (hstep : ∀ ej e s, P ej → Q e → (step fr ej e).1 = some s → P s)
    (evs : List Event) (ej s : EjecterPlugin) (h : P ej) (hq : ∀ e ∈ evs, Q e)
    (hs : (run fr ej evs).1 = some s) : P s := by
  induction evs generalizing ej with
  | nil =>
    simp only [run, Option.some.injEq] at hs
    exact hs ▸ h
  | cons e es ih =>
    simp only [run] at hs
    cases h1 : (step fr ej e).1 with
    | none => simp [h1] at hs
    | some ej1 =>
      simp only [h1] at hs
      exact ih ej1 (hstep ej e ej1 h (hq e (List.mem_cons_self _ _)) h1)
        (fun x hx => hq x (List.mem_cons_of_mem _ hx)) hs

theorem run_not_mounted (fr : FreedNext) (evs : List Event) (ej s : EjecterPlugin)
    (D : GDrive) (h : D ∉ ej.mdrives)
    (he : ∀ m, Event.mount_added m ∈ evs → g_mount_get_drive m ≠ D)
    (hs : (run fr ej evs).1 = some s) : D ∉ s.mdrives :=
  run_induct fr (fun x => D ∉ x.mdrives)
    (fun e => ∀ m, e = Event.mount_added m → g_mount_get_drive m ≠ D)
    (fun ej1 e s1 hp hq h1 => step_not_mounted fr ej1 e D s1 hp hq h1)
    evs ej s h (fun _ hmem m hm => he m (hm ▸ hmem)) hs

theorem run_nodup (fr : FreedNext) (evs : List Event) (ej s : EjecterPlugin)
    (h : ej.mdrives.Nodup) (hs : (run fr ej evs).1 = some s) : s.mdrives.Nodup :=
  run_induct fr (fun x => x.mdrives.Nodup) (fun _ => True)
    (fun ej1 e s1 hp _ h1 => step_nodup fr ej1 e s1 hp h1)
    evs ej s h (fun _ _ => trivial) hs

theorem step_null_returns (ej : EjecterPlugin) (e : Event) :
    ∃ s, (step FreedNext.null ej e).1 = some s := by
  cases e with
  | drive_disconnected d => exact handle_drive_out_null_returns ej d
  | _ => exact ⟨_, rfl⟩

theorem run_null_returns (evs : List Event) (ej : EjecterPlugin) :
    ∃ s, (run FreedNext.null ej evs).1 = some s := by
  induction evs generalizing ej with
  | nil => exact ⟨ej, rfl⟩
  | cons e es ih =>
    obtain ⟨ej1, h1⟩ := step_null_returns ej e
    obtain ⟨s, hs⟩ := ih ej1
    exact ⟨s, by simp only [run, h1]; exact hs⟩

/-! ## The eject records along a run -/

theorem ejected_text_ne_warning (name : String) :
    name ++ " has been ejected\nIt is now safe to remove the device" ≠
      "Drive was removed without ejecting\nPlease use menu to eject before removal" := by
  intro h
  have h2 := congrArg (fun t => t.data.getLast?) h
  simp [String.data_append] at h2

theorem failed_text_ne_warning (name detail : String) :
    "Failed to eject " ++ name ++ "\n" ++ detail ≠
      "Drive was removed without ejecting\nPlease use menu to eject before removal" := by
  intro h
  have h2 := congrArg (fun t => t.data.head?) h
  simp [String.data_append] at h2

/-! ## Removal of a drive: warning or silence -/

/-- C1: when `D` is in `mdrives` and no eject record names `D`, `handle_drive_out`
returns, whatever a read of a released node would yield (none happens here),
having made exactly one call: `lxpanel_notify` of the text `Drive was removed
without ejecting`, line break, `Please use menu to eject before removal`. That
call is no success and no failure message, and no `lxpanel_notify_clear` is
made. The entry of `D` is taken out of `mdrives`, which gets one shorter, and
`ejdrives` is as it was; with every drive listed once, as in all reachable
states, `D` is then no longer listed. -/
theorem handle_drive_out_unsafe_removal (fr : FreedNext) (ej : EjecterPlugin) (D : GDrive)
    (hm : D ∈ ej.mdrives) (hn : ∀ el ∈ ej.ejdrives, el.drv ≠ D) :
    handle_drive_out fr ej D
      = (some { mdrives := g_list_remove ej.mdrives D, ejdrives := ej.ejdrives },
         [Call.lxpanel_notify
           "Drive was removed without ejecting\nPlease use menu to eject before removal"]) ∧
    (∀ name : String, Call.lxpanel_notify
        (name ++ " has been ejected\nIt is now safe to remove the device") ∉
      (handle_drive_out fr ej D).2) ∧
    (∀ name detail : String, Call.lxpanel_notify
        ("Failed to eject " ++ name ++ "\n" ++ detail) ∉ (handle_drive_out fr ej D).2) ∧
    (∀ seq : Int, Call.lxpanel_notify_clear seq ∉ (handle_drive_out fr ej D).2) ∧
    (g_list_remove ej.mdrives D).length + 1 = ej.mdrives.length ∧
    (ej.mdrives.Nodup → D ∉ g_list_remove ej.mdrives D) := by
  have heq : handle_drive_out fr ej D
      = (some { mdrives := g_list_remove ej.mdrives D, ejdrives := ej.ejdrives },
         [Call.lxpanel_notify
           "Drive was removed without ejecting\nPlease use menu to eject before removal"]) := by
    rw [handle_drive_out_mounted fr ej D hm, was_ejected_loop_no_record fr D ej.ejdrives hn]
    simp [removed_message]
  rw [heq]
  refine ⟨rfl, ?_, ?_, ?_, g_list_remove_length _ _ hm, ?_⟩
  · intro name hmem
    simp only [List.mem_singleton, Call.lxpanel_notify.injEq] at hmem
    exact ejected_text_ne_warning name hmem
  · intro name detail hmem
    simp only [List.mem_singleton, Call.lxpanel_notify.injEq] at hmem
    exact failed_text_ne_warning name detail hmem
  · intro seq hmem
    simp at hmem
  · intro hnd hmem
    rw [g_list_remove_eq_filter _ _ hnd, List.mem_filter] at hmem
    simp at hmem

/-- Witness of C1: from the empty tracker, `mount-added` of drive 2 followed by
`drive-disconnected` of drive 2 gives one warning and nothing else. -/
theorem handle_drive_out_unsafe_removal_witness :
    (run FreedNext.wild empty_tracker [Event.mount_added ⟨some 2⟩]).1
      = some { mdrives := [some 2], ejdrives := [] } ∧
    some 2 ∈ ({ mdrives := [some 2], ejdrives := [] } : EjecterPlugin).mdrives ∧
    (∀ el ∈ ({ mdrives := [some 2], ejdrives := [] } : EjecterPlugin).ejdrives,
      el.drv ≠ some 2) ∧
    handle_drive_out FreedNext.wild { mdrives := [some 2], ejdrives := [] } (some 2)
      = (some { mdrives := [], ejdrives := [] },
         [Call.lxpanel_notify
           "Drive was removed without ejecting\nPlease use menu to eject before removal"]) :=
  ⟨by decide, by decide, by decide,
    (handle_drive_out_unsafe_removal FreedNext.wild
      { mdrives := [some 2], ejdrives := [] } (some 2) (by decide) (by decide)).1⟩

/-- C3: let `D` own none of the mounts enumerated at start-up, and take events
from the initial state among which no `mount-added` is for a mount of `D`. Every
`drive-disconnected` of `D` among them, handled in the state `s` that the events
before it lead to, returns with `s` unchanged and makes no call at all: no
notification is raised for a drive never seen mounted. With the NULL read the
events before it always lead to a state. -/
theorem never_mounted_drive_out_silent (fr : FreedNext) (mnts : List GMount) (D : GDrive)
    (pre post : List Event)
    (h0 : ∀ m ∈ mnts, g_mount_get_drive m ≠ D)
    (h1 : ∀ m, Event.mount_added m ∈ pre ++ Event.drive_disconnected D :: post →
      g_mount_get_drive m ≠ D) :
    (∀ s, (run fr (ejecter_init mnts) pre).1 = some s →
      step fr s (Event.drive_disconnected D) = (some s, [])) ∧
    (∃ s, (run FreedNext.null (ejecter_init mnts) pre).1 = some s) := by
  have hi : D ∉ (ejecter_init mnts).mdrives := by
    rw [ejecter_init_mem]
    rintro ⟨m, hm, hd⟩
    exact h0 m hm hd
  refine ⟨?_, run_null_returns _ _⟩
  intro s hs
  have hr := run_not_mounted fr pre _ s D hi
    (fun m hm => h1 m (List.mem_append_left _ hm)) hs
  simp only [step]
  rw [handle_drive_out_not_mounted fr _ D hr]

/-- Witness of C3: `drive-disconnected` of drive 1 on the empty tracker makes
no call. -/
theorem never_mounted_drive_out_silent_witness :
    (∀ m ∈ ([] : List GMount), g_mount_get_drive m ≠ some 1) ∧
    step FreedNext.null (ejecter_init []) (Event.drive_disconnected (some 1))
      = (some (ejecter_init []), []) :=
  ⟨by simp,
    (never_mounted_drive_out_silent FreedNext.null [] (some 1) [] []
      (by simp) (by simp)).1 (ejecter_init []) rfl⟩

/-! ## Clearing the success notification -/

/-- C4, as stated, fails: from the empty tracker, `mount-pre-unmount` of drive
4, eject success with handle 7 and `drive-disconnected` of drive 4 make no
`lxpanel_notify_clear` call on 7, and the record of drive 4 is still held,
under either value of the read of a released node (none happens). The same
holds with handle `-1`; and with handle `-1` no `lxpanel_notify_clear` is made
even when `mount-added` of drive 4 comes first. -/
theorem clear_from_empty_tracker_counterexample :
    (run FreedNext.null empty_tracker
      [Event.mount_pre_unmount ⟨some 4⟩, Event.eject_done (some 4) "USB" none 7,
        Event.drive_disconnected (some 4)]).2.count (Call.lxpanel_notify_clear 7) = 0 ∧
    (run FreedNext.wild empty_tracker
      [Event.mount_pre_unmount ⟨some 4⟩, Event.eject_done (some 4) "USB" none 7,
        Event.drive_disconnected (some 4)]).2.count (Call.lxpanel_notify_clear 7) = 0 ∧
    (run FreedNext.null empty_tracker
      [Event.mount_pre_unmount ⟨some 4⟩, Event.eject_done (some 4) "USB" none 7,
        Event.drive_disconnected (some 4)]).1
      = some { mdrives := [], ejdrives := [{ drv := some 4, seq := 7 }] } ∧
    (run FreedNext.null empty_tracker
      [Event.mount_pre_unmount ⟨some 4⟩, Event.eject_done (some 4) "USB" none (-1),
        Event.drive_disconnected (some 4)]).2.count (Call.lxpanel_notify_clear (-1)) = 0 ∧
    (run FreedNext.null empty_tracker
      [Event.mount_added ⟨some 4⟩, Event.mount_pre_unmount ⟨some 4⟩,
        Event.eject_done (some 4) "USB" none (-1),
        Event.drive_disconnected (some 4)]).2.count (Call.lxpanel_notify_clear (-1)) = 0 := by
  decide

/-- C4, amended: from the empty tracker, once `D` has been recorded as mounted
(`mount-added` of `D`), the events `mount-pre-unmount` of `D`, eject success of
`D` with a handle `H` other than `-1`, `drive-disconnected` of `D` make the
calls `lxpanel_notify` (success text) and `lxpanel_notify_clear H`, in that
order and nothing else, so `H` is cleared exactly once. This is so whatever the
read of the released node yields, the clearing being done before that read. A
further `drive-disconnected` of `D` adds no clearing of `H`. With the NULL read
the four events leave both lists empty and the fifth makes no call. -/
theorem clear_once_when_mounted (fr : FreedNext) (D : GDrive) (name : String) (H : Int)
    (hH : H ≠ -1) :
    (run fr empty_tracker
      [Event.mount_added ⟨D⟩, Event.mount_pre_unmount ⟨D⟩, Event.eject_done D name none H,
        Event.drive_disconnected D]).2
      = [Call.lxpanel_notify (name ++ " has been ejected\nIt is now safe to remove the device"),
         Call.lxpanel_notify_clear H] ∧
    (run fr empty_tracker
      [Event.mount_added ⟨D⟩, Event.mount_pre_unmount ⟨D⟩, Event.eject_done D name none H,
        Event.drive_disconnected D]).2.count (Call.lxpanel_notify_clear H) = 1 ∧
    (run fr empty_tracker
      [Event.mount_added ⟨D⟩, Event.mount_pre_unmount ⟨D⟩, Event.eject_done D name none H,
        Event.drive_disconnected D, Event.drive_disconnected D]).2.count
      (Call.lxpanel_notify_clear H) = 1 ∧
    (run FreedNext.null empty_tracker
      [Event.mount_added ⟨D⟩, Event.mount_pre_unmount ⟨D⟩, Event.eject_done D name none H,
        Event.drive_disconnected D]).1 = some { mdrives := [], ejdrives := [] } ∧
    step FreedNext.null { mdrives := [], ejdrives := [] } (Event.drive_disconnected D)
      = (some { mdrives := [], ejdrives := [] }, []) := by
  have h4 : ∀ fr2 : FreedNext, (run fr2 empty_tracker
      [Event.mount_added ⟨D⟩, Event.mount_pre_unmount ⟨D⟩, Event.eject_done D name none H,
        Event.drive_disconnected D]).2
      = [Call.lxpanel_notify (name ++ " has been ejected\nIt is now safe to remove the device"),
         Call.lxpanel_notify_clear H] := by
    intro fr2
    cases fr2 <;>
      simp [run, step, empty_tracker, ejecter_init, log_init_mounts, handle_mount_in,
        handle_mount_pre, log_mount, log_eject, mdrives_scan, g_mount_get_drive, eject_done,
        add_seq_for_drive, add_seq_loop, handle_drive_out, was_mounted, was_ejected,
        was_ejected_loop, g_list_remove, ejected_message, hH]
  have h5 : (run fr empty_tracker
      [Event.mount_added ⟨D⟩, Event.mount_pre_unmount ⟨D⟩, Event.eject_done D name none H,
        Event.drive_disconnected D, Event.drive_disconnected D]).2
      = [Call.lxpanel_notify (name ++ " has been ejected\nIt is now safe to remove the device"),
         Call.lxpanel_notify_clear H] := by
    cases fr <;>
      simp [run, step, empty_tracker, ejecter_init, log_init_mounts, handle_mount_in,
        handle_mount_pre, log_mount, log_eject, mdrives_scan, g_mount_get_drive, eject_done,
        add_seq_for_drive, add_seq_loop, handle_drive_out, was_mounted, was_ejected,
        was_ejected_loop, g_list_remove, ejected_message, hH]
  refine ⟨h4 fr, ?_, ?_, ?_, ?_⟩
  · rw [h4 fr]
    simp [List.count_cons]
  · rw [h5]
    simp [List.count_cons]
  · simp [run, step, empty_tracker, ejecter_init, log_init_mounts, handle_mount_in,
      handle_mount_pre, log_mount, log_eject, mdrives_scan, g_mount_get_drive, eject_done,
      add_seq_for_drive, add_seq_loop, handle_drive_out, was_mounted, was_ejected,
      was_ejected_loop, g_list_remove, hH]
  · simp [step, handle_drive_out, was_mounted, mdrives_scan]

/-- Witness of C4 amended: drive 4, handle 7, with the wild read. -/
theorem clear_once_when_mounted_witness :
    (7 : Int) ≠ -1 ∧
    (run FreedNext.wild empty_tracker
      [Event.mount_added ⟨some 4⟩, Event.mount_pre_unmount ⟨some 4⟩,
        Event.eject_done (some 4) "USB" none 7,
        Event.drive_disconnected (some 4)]).2.count (Call.lxpanel_notify_clear 7) = 1 :=
  ⟨by decide, (clear_once_when_mounted FreedNext.wild (some 4) "USB" 7 (by decide)).2.1⟩

/-! ## Eject records at a drive removal -/

/-- C6, as stated, fails: `log_mount` on the empty tracker for a mount whose
`g_mount_get_drive` is NULL puts a NULL entry into `mdrives`. -/
theorem log_mount_null_counterexample :
    (log_mount empty_tracker ⟨none⟩).mdrives = [none] ∧
    (log_mount empty_tracker ⟨none⟩).mdrives ≠ empty_tracker.mdrives := by
  decide

/-- C6, amended: `log_mount` has no NULL test. For a mount whose owning drive
is NULL, `handle_mount_in` makes no call and leaves `ejdrives` alone; the NULL
pointer is treated like any drive: if `mdrives` already holds a NULL entry it is
unchanged, otherwise one NULL entry is appended. -/
theorem log_mount_null_drive (ej : EjecterPlugin) (mount : GMount)
    (h : g_mount_get_drive mount = none) :
    (handle_mount_in ej mount).2 = [] ∧
    (handle_mount_in ej mount).1 = log_mount ej mount ∧
    (log_mount ej mount).ejdrives = ej.ejdrives ∧
    (none ∈ ej.mdrives → log_mount ej mount = ej) ∧
    (none ∉ ej.mdrives → (log_mount ej mount).mdrives = ej.mdrives ++ [none]) := by
  refine ⟨rfl, rfl, log_mount_ejdrives ej mount, ?_, ?_⟩
  · intro hm
    unfold log_mount
    simp [h, (mdrives_scan_iff none ej.mdrives).2 hm]
  · intro hm
    have hs : mdrives_scan none ej.mdrives = false := by
      cases hs : mdrives_scan none ej.mdrives
      · rfl
      · exact absurd ((mdrives_scan_iff _ _).1 hs) hm
    unfold log_mount
    simp [h, hs]

/-- Witness of C6 amended: a drive-less mount recorded on a tracker that holds
drive 1. -/
theorem log_mount_null_drive_witness :
    g_mount_get_drive ⟨none⟩ = none ∧
    (log_mount { mdrives := [some 1], ejdrives := [] } ⟨none⟩).mdrives = [some 1, none] :=
  ⟨rfl,
    (log_mount_null_drive { mdrives := [some 1], ejdrives := [] } ⟨none⟩ rfl).2.2.2.2
      (by decide)⟩


/-! ## Each drive is listed once -/

/-- C7: in every state reached from the start-up enumeration (`ejecter_init`
over any list of mounts, several mounts of one drive included) by any events,
`mdrives` holds no drive twice; and from such a state `log_mount` for a mount
of `D` done twice gives the same state as done once, with `D` listed exactly
once. With the NULL read every sequence of events leads to a state. -/
theorem mdrives_listed_once (fr : FreedNext) (mnts : List GMount) (evs : List Event)
    (mount : GMount) :
    (∀ s, (run fr (ejecter_init mnts) evs).1 = some s →
      s.mdrives.Nodup ∧
      log_mount (log_mount s mount) mount = log_mount s mount ∧
      ((log_mount s mount).mdrives.filter
        (fun d => decide (d = g_mount_get_drive mount))).length = 1) ∧
    (∃ s, (run FreedNext.null (ejecter_init mnts) evs).1 = some s) := by
  refine ⟨?_, run_null_returns _ _⟩
  intro s hs
  have hn := run_nodup fr evs _ s (ejecter_init_nodup mnts) hs
  have hmem : g_mount_get_drive mount ∈ (log_mount s mount).mdrives :=
    (log_mount_mdrives_mem s mount _).2 (Or.inr rfl)
  refine ⟨hn, ?_, ?_⟩
  · exact log_mount_of_mem _ mount hmem
  · exact nodup_filter_eq_length _ _ (log_mount_nodup s mount hn) hmem

/-! ## The destructive was-mounted query -/

/-- C8: in every reachable state, `was_mounted` for `D` returns TRUE exactly
when `D` is listed; when listed, the entry of `D` is removed, `D` is no longer
listed and the other entries stay in their order; when not listed the state is
unchanged; `ejdrives` is never touched; and a second call right after the first
returns FALSE. With the NULL read every sequence of events leads to a state. -/
theorem was_mounted_consumes (fr : FreedNext) (mnts : List GMount) (evs : List Event)
    (D : GDrive) :
    (∀ s, (run fr (ejecter_init mnts) evs).1 = some s →
      (was_mounted s D).1 = decide (D ∈ s.mdrives) ∧
      (was_mounted s D).2.mdrives = s.mdrives.filter (fun d => !decide (d = D)) ∧
      D ∉ (was_mounted s D).2.mdrives ∧
      (was_mounted s D).2.ejdrives = s.ejdrives ∧
      (D ∉ s.mdrives → was_mounted s D = (false, s)) ∧
      (was_mounted (was_mounted s D).2 D).1 = false) ∧
    (∃ s, (run FreedNext.null (ejecter_init mnts) evs).1 = some s) := by
  refine ⟨?_, run_null_returns _ _⟩
  intro s hs
  have hn := run_nodup fr evs _ s (ejecter_init_nodup mnts) hs
  have hf : (was_mounted s D).2.mdrives = s.mdrives.filter (fun d => !decide (d = D)) := by
    rw [was_mounted_mdrives, g_list_remove_eq_filter _ _ hn]
  have hnot : D ∉ (was_mounted s D).2.mdrives := by
    rw [hf, List.mem_filter]
    simp
  refine ⟨was_mounted_fst s D, hf, hnot, was_mounted_ejdrives s D, ?_, ?_⟩
  · intro hm
    have hsc : mdrives_scan D s.mdrives = false := by
      cases hsc : mdrives_scan D s.mdrives
      · rfl
      · exact absurd ((mdrives_scan_iff _ _).1 hsc) hm
    simp [was_mounted, hsc]
  · rw [was_mounted_fst]
    simp [hnot]

/-! ## The control message -/

/-- C9: for every command (NULL included) and every answer of the monitor,
`ejecter_control_msg` returns TRUE and makes no call, so the eject primitive is
not invoked; `mdrives` is unchanged; `ejdrives` gains, at its end and in
enumeration order, one record with `seq = -1` for each connected drive whose
`unix-device` identifier equals the command, and nothing else changes; with no
such drive the state is unchanged. -/
theorem ejecter_control_msg_effect (ej : EjecterPlugin) (mon : GVolumeMonitor)
    (cmd : Option String) :
    (ejecter_control_msg ej mon cmd).1 = true ∧
    (ejecter_control_msg ej mon cmd).2.2 = [] ∧
    (∀ d, Call.g_drive_eject_with_operation d ∉ (ejecter_control_msg ej mon cmd).2.2) ∧
    (ejecter_control_msg ej mon cmd).2.1.mdrives = ej.mdrives ∧
    (ejecter_control_msg ej mon cmd).2.1.ejdrives = ej.ejdrives ++
      (mon.connected_drives.filter (fun d => decide (mon.unix_device d = cmd))).map
        (fun d => ({ drv := d, seq := -1 } : EjectList)) ∧
    ((∀ d ∈ mon.connected_drives, mon.unix_device d ≠ cmd) →
      (ejecter_control_msg ej mon cmd).2.1 = ej) := by
  have hm := control_msg_loop_mdrives mon cmd ej mon.connected_drives
  have he := control_msg_loop_ejdrives mon cmd ej mon.connected_drives
  refine ⟨rfl, rfl, fun d => by simp [ejecter_control_msg], hm, he, ?_⟩
  intro hno
  have hnil : mon.connected_drives.filter (fun d => decide (mon.unix_device d = cmd)) = [] := by
    rw [List.filter_eq_nil_iff]
    intro a ha
    simp [hno a ha]
  rw [hnil] at he
  simp only [List.map_nil, List.append_nil] at he
  show control_msg_loop mon cmd ej mon.connected_drives = ej
  cases hc : control_msg_loop mon cmd ej mon.connected_drives with
  | mk m e =>
    rw [hc] at hm he
    cases ej
    simp only at hm he
    rw [hm, he]

/-- Witness of C9: three connected drives, none identified by `/dev/sdz`: the
tracker is unchanged. -/
theorem ejecter_control_msg_effect_witness :
    (ejecter_control_msg { mdrives := [some 1], ejdrives := [{ drv := some 1, seq := 3 }] }
      { mounts := [], connected_drives := [some 1, some 2, some 3],
        unix_device := fun d => if d = some 2 then none else some ("/dev/sda") }
      (some ("/dev/sdz"))).2.1
      = { mdrives := [some 1], ejdrives := [{ drv := some 1, seq := 3 }] } :=
  (ejecter_control_msg_effect { mdrives := [some 1], ejdrives := [{ drv := some 1, seq := 3 }] }
    { mounts := [], connected_drives := [some 1, some 2, some 3],
      unix_device := fun d => if d = some 2 then none else some ("/dev/sda") }
    (some ("/dev/sdz"))).2.2.2.2.2 (by decide)

/-! ## A failed eject -/

/-- C10: `eject_done` with an error makes exactly one call, `lxpanel_notify` of
the failure text, which is `Failed to eject`, the drive name, a line break and
the error detail; the plugin state, hence every eject record with its handle
and `mdrives`, is returned unchanged, under `step` as well. -/
theorem eject_done_failure (fr : FreedNext) (ej : EjecterPlugin) (drv : GDrive)
    (name detail : String) (seq : Int) :
    eject_done ej drv name (some detail) seq
      = (ej, [Call.lxpanel_notify ("Failed to eject " ++ name ++ "\n" ++ detail)]) ∧
    step fr ej (Event.eject_done drv name (some detail) seq)
      = (some ej, [Call.lxpanel_notify (failed_message name detail)]) ∧
    (eject_done ej drv name (some detail) seq).1.ejdrives = ej.ejdrives ∧
    (eject_done ej drv name (some detail) seq).1.mdrives = ej.mdrives ∧
    (eject_done ej drv name (some detail) seq).2.length = 1 :=
  ⟨rfl, rfl, rfl, rfl, rfl⟩

/-! ## The scan of `was_ejected` over several records of one drive -/

/-- C11 at a failing input. Two `mount-pre-unmount` signals for drive 4 (a drive
with two mounted volumes) and one eject success with handle 7 give the records
`(4, 7), (4, -1)`. `was_ejected` for drive 4 frees the first node and then reads
its `next` field; with the NULL that the unlinking leaves there the scan stops:
TRUE is returned, handle 7 is cleared, and the second record of drive 4 is still
in `ejdrives`, so a second call returns TRUE again. On `(4, 1), (4, 2)` handle 2
is not cleared by the first call. With the wild read the function does not
return at all, and again only the handle of the first record has been
cleared. -/
theorem was_ejected_leaves_second_record :
    (run FreedNext.null empty_tracker
      [Event.mount_pre_unmount ⟨some 4⟩, Event.mount_pre_unmount ⟨some 4⟩,
        Event.eject_done (some 4) "USB" none 7]).1
      = some { mdrives := [],
               ejdrives := [{ drv := some 4, seq := 7 }, { drv := some 4, seq := -1 }] } ∧
    was_ejected FreedNext.null
      { mdrives := [], ejdrives := [{ drv := some 4, seq := 7 }, { drv := some 4, seq := -1 }] }
      (some 4)
      = (some (true, { mdrives := [], ejdrives := [{ drv := some 4, seq := -1 }] }),
         [Call.lxpanel_notify_clear 7]) ∧
    (was_ejected FreedNext.null
      { mdrives := [], ejdrives := [{ drv := some 4, seq := -1 }] } (some 4)).1
      = some (true, { mdrives := [], ejdrives := [] }) ∧
    was_ejected FreedNext.null
      { mdrives := [], ejdrives := [{ drv := some 4, seq := 1 }, { drv := some 4, seq := 2 }] }
      (some 4)
      = (some (true, { mdrives := [], ejdrives := [{ drv := some 4, seq := 2 }] }),
         [Call.lxpanel_notify_clear 1]) ∧
    was_ejected FreedNext.wild
      { mdrives := [], ejdrives := [{ drv := some 4, seq := 7 }, { drv := some 4, seq := -1 }] }
      (some 4)
      = (none, [Call.lxpanel_notify_clear 7]) ∧
    was_ejected FreedNext.wild
      { mdrives := [], ejdrives := [{ drv := some 4, seq := 1 }, { drv := some 4, seq := 2 }] }
      (some 4)
      = (none, [Call.lxpanel_notify_clear 1]) := by
  decide

/-! ## Attaching the notification handle -/

theorem add_seq_loop_no_record (D : GDrive) (H : Int) (l : List EjectList)
    (h : ∀ el ∈ l, el.drv ≠ D) : add_seq_loop D H l = l := by
  induction l with
  | nil => rfl
  | cons el rest ih =>
    have h1 : el.drv ≠ D := h el (List.mem_cons_self _ _)
    simp [add_seq_loop, h1, ih (fun x hx => h x (List.mem_cons_of_mem _ hx))]

theorem add_seq_loop_first (D : GDrive) (H : Int) (front : List EjectList) (el : EjectList)
    (post : List EjectList) (hfront : ∀ x ∈ front, x.drv ≠ D) (hel : el.drv = D) :
    add_seq_loop D H (front ++ el :: post) = front ++ { drv := D, seq := H } :: post := by
  induction front with
  | nil => simp [add_seq_loop, hel]
  | cons x xs ih =>
    have hx : x.drv ≠ D := hfront x (List.mem_cons_self _ _)
    simp [add_seq_loop, hx, ih (fun y hy => hfront y (List.mem_cons_of_mem _ hy))]

theorem exists_first_record (D : GDrive) (l : List EjectList)
    (h : D ∈ l.map EjectList.drv) :
    ∃ front el post, l = front ++ el :: post ∧ (∀ x ∈ front, x.drv ≠ D) ∧ el.drv = D := by
  induction l with
  | nil => simp at h
  | cons y ys ih =>
    by_cases hy : y.drv = D
    · exact ⟨[], y, ys, rfl, by simp, hy⟩
    · have hys : D ∈ ys.map EjectList.drv := by
        simp only [List.map_cons, List.mem_cons] at h
        rcases h with h | h
        · exact absurd h.symm hy
        · exact h
      obtain ⟨front, el, post, hl, hf, he⟩ := ih hys
      refine ⟨y :: front, el, post, by simp [hl], ?_, he⟩
      intro x hx
      rw [List.mem_cons] at hx
      rcases hx with rfl | hx
      · exact hy
      · exact hf x hx

/-- C12: `add_seq_for_drive` for drive `D` and handle `H` leaves `mdrives`, the
length of `ejdrives` and the drive of every record as they were. When no record
names `D` the state is returned unchanged. When some record names `D`, the list
splits as `front`, the first record of `D`, `post`, and the result is the same
list with only that record carrying `H`: the records before it, and all records
after it (later records of `D` included), keep drive and handle. The success
branch of `eject_done` is this update with the value `lxpanel_notify` returned. -/
theorem add_seq_for_drive_first_match (ej : EjecterPlugin) (D : GDrive) (H : Int) :
    (add_seq_for_drive ej D H).mdrives = ej.mdrives ∧
    (add_seq_for_drive ej D H).ejdrives.length = ej.ejdrives.length ∧
    (add_seq_for_drive ej D H).ejdrives.map EjectList.drv = ej.ejdrives.map EjectList.drv ∧
    ((∀ el ∈ ej.ejdrives, el.drv ≠ D) → add_seq_for_drive ej D H = ej) ∧
    (D ∈ ejected_drives ej →
      ∃ front el post, ej.ejdrives = front ++ el :: post ∧ (∀ x ∈ front, x.drv ≠ D) ∧
        el.drv = D ∧
        (add_seq_for_drive ej D H).ejdrives = front ++ { drv := D, seq := H } :: post) ∧
    (∀ front el post, ej.ejdrives = front ++ el :: post → (∀ x ∈ front, x.drv ≠ D) →
      el.drv = D →
      (add_seq_for_drive ej D H).ejdrives = front ++ { drv := D, seq := H } :: post) ∧
    (∀ name : String, eject_done ej D name none H
      = (add_seq_for_drive ej D H, [Call.lxpanel_notify (ejected_message name)])) := by
  have hdrv := add_seq_loop_drives D H ej.ejdrives
  refine ⟨rfl, ?_, hdrv, ?_, ?_, ?_, fun _ => rfl⟩
  · have := congrArg List.length hdrv
    simpa using this
  · intro hno
    cases ej with
    | mk m e =>
      simp only [add_seq_for_drive]
      rw [add_seq_loop_no_record D H e hno]
  · intro hmem
    obtain ⟨front, el, post, hl, hf, he⟩ := exists_first_record D ej.ejdrives hmem
    refine ⟨front, el, post, hl, hf, he, ?_⟩
    simp only [add_seq_for_drive]
    rw [hl]
    exact add_seq_loop_first D H front el post hf he
  · intro front el post hl hf he
    simp only [add_seq_for_drive]
    rw [hl]
    exact add_seq_loop_first D H front el post hf he

/-- Witness of C12: records `(1, -1), (4, -1), (4, 3)` and handle 7 for drive 4:
only the second record changes. -/
theorem add_seq_for_drive_first_match_witness :
    (add_seq_for_drive
      { mdrives := [some 4],
        ejdrives := [{ drv := some 1, seq := -1 }, { drv := some 4, seq := -1 },
          { drv := some 4, seq := 3 }] }
      (some 4) 7).ejdrives
      = [{ drv := some 1, seq := -1 }] ++
          { drv := some 4, seq := 7 } :: [{ drv := some 4, seq := 3 }] :=
  (add_seq_for_drive_first_match
    { mdrives := [some 4],
      ejdrives := [{ drv := some 1, seq := -1 }, { drv := some 4, seq := -1 },
        { drv := some 4, seq := 3 }] }
    (some 4) 7).2.2.2.2.2.1 [{ drv := some 1, seq := -1 }] { drv := some 4, seq := -1 }
      [{ drv := some 4, seq := 3 }] rfl (by decide) rfl

end Ejecter
